import Mathlib

/-!
Verification development for the tool-orchestration session of the
voting-info-agent repository (src/mcp-client/client.py).

The Python values that flow through the Content Normalizer
(MCPClient._content_to_text) are modelled by the inductive type PyVal:
None, strings, lists, dicts (string-keyed records), numbers, booleans,
and opaque objects that may expose a text attribute and have a default
str() rendering.
-/

inductive PyVal where
  | null
  | str (s : String)
  | num (n : Int)
  | bool (b : Bool)
  | list (xs : List PyVal)
  | dict (fields : List (String × PyVal))
  | obj (text : Option PyVal) (objRepr : String)

/-- Model of the JSON string-literal encoding used by json.dumps: the body is
escaped for backslash and double quote and wrapped in double quotes. -/
def jsonQuote (s : String) : String :=
  "\"" ++ ((s.replace "\\" "\\\\").replace "\"" "\\\"") ++ "\""

mutual

/-- Model of json.dumps(value, default=str) from the Python standard library,
as called at client.py lines 315 and 323.  With default=str an opaque object
serializes as the JSON string of its str() rendering, so the call is total on
every modelled value. -/
def jsonDumps : PyVal → String
  | .null => "null"
  | .str s => jsonQuote s
  | .num n => toString n
  | .bool b => if b then "true" else "false"
  | .list xs => "[" ++ jsonDumpsItems xs ++ "]"
  | .dict fs => "\x7b" ++ jsonDumpsFields fs ++ "\x7d"
  | .obj _ r => jsonQuote r

def jsonDumpsItems : List PyVal → String
  | [] => ""
  | [x] => jsonDumps x
  | x :: y :: xs => jsonDumps x ++ ", " ++ jsonDumpsItems (y :: xs)

def jsonDumpsFields : List (String × PyVal) → String
  | [] => ""
  | [(k, v)] => jsonQuote k ++ ": " ++ jsonDumps v
  | (k, v) :: f :: fs =>
      jsonQuote k ++ ": " ++ jsonDumps v ++ ", " ++ jsonDumpsFields (f :: fs)

end

mutual

/-- Embedding of MCPClient._content_to_text (client.py lines 299-325), case
for case: None yields the empty string; a string is returned as is; a list is
normalized elementwise and the non-empty parts are joined with newlines; a
dict with a string "text" entry returns it verbatim and otherwise is JSON
serialized; an object with a string text attribute returns it, anything else
falls to json.dumps with default=str (total on the modelled values, so the
final except branch of the source is unreachable here). -/
def contentToText : PyVal → String
  | .null => ""
  | .str s => s
  | .num n => jsonDumps (.num n)
  | .bool b => jsonDumps (.bool b)
  | .list xs =>
      String.intercalate "\n" ((contentToTextList xs).filter (fun p => p ≠ ""))
  | .dict fs =>
      match fs.lookup "text" with
      | some (.str t) => t
      | _ => jsonDumps (.dict fs)
  | .obj t r =>
      match t with
      | some (.str s) => s
      | _ => jsonDumps (.obj t r)

/-- The list comprehension parts of _content_to_text on a list input. -/
def contentToTextList : List PyVal → List String
  | [] => []
  | x :: xs => contentToText x :: contentToTextList xs

end

mutual

/-- Depth-indexed evaluator for _content_to_text: fuel models the Python call
stack, and none models running out of recursion depth.  Only the list case
re-enters the function, exactly as in the source. -/
def contentToTextFuel : Nat → PyVal → Option String
  | 0, _ => none
  | _ + 1, .null => some ""
  | _ + 1, .str s => some s
  | _ + 1, .num n => some (jsonDumps (.num n))
  | _ + 1, .bool b => some (jsonDumps (.bool b))
  | n + 1, .list xs =>
      (contentToTextFuelList n xs).map
        (fun parts => String.intercalate "\n" (parts.filter (fun p => p ≠ "")))
  | _ + 1, .dict fs =>
      some (match fs.lookup "text" with
            | some (.str t) => t
            | _ => jsonDumps (.dict fs))
  | _ + 1, .obj t r =>
      some (match t with
            | some (.str s) => s
            | _ => jsonDumps (.obj t r))

def contentToTextFuelList : Nat → List PyVal → Option (List String)
  | _, [] => some []
  | n, x :: xs =>
      match contentToTextFuel n x, contentToTextFuelList n xs with
      | some t, some ts => some (t :: ts)
      | _, _ => none

end

theorem contentToTextFuel_mono_succ (n : Nat) :
    (∀ c s, contentToTextFuel n c = some s → contentToTextFuel (n + 1) c = some s) ∧
    (∀ xs ts, contentToTextFuelList n xs = some ts →
        contentToTextFuelList (n + 1) xs = some ts) := by
  induction n with
  | zero =>
    constructor
    · intro c s h; simp [contentToTextFuel] at h
    · intro xs ts h
      cases xs with
      | nil => simpa [contentToTextFuelList] using h
      | cons x xs => simp [contentToTextFuelList, contentToTextFuel] at h
  | succ n ih =>
    have hc : ∀ c s, contentToTextFuel (n + 1) c = some s →
        contentToTextFuel (n + 2) c = some s := by
      intro c s h
      cases c with
      | list xs =>
        simp only [contentToTextFuel] at h ⊢
        cases hts : contentToTextFuelList n xs with
        | none => rw [hts] at h; simp at h
        | some ts => rw [hts] at h; rw [ih.2 xs ts hts]; exact h
      | null => simpa [contentToTextFuel] using h
      | str s => simpa [contentToTextFuel] using h
      | num m => simpa [contentToTextFuel] using h
      | bool b => simpa [contentToTextFuel] using h
      | dict fs => simpa [contentToTextFuel] using h
      | obj t r => simpa [contentToTextFuel] using h
    refine ⟨hc, ?_⟩
    intro xs ts h
    induction xs generalizing ts with
    | nil => simpa [contentToTextFuelList] using h
    | cons x xs ihx =>
      simp only [contentToTextFuelList] at h ⊢
      cases hx : contentToTextFuel (n + 1) x with
      | none => simp [hx] at h
      | some t =>
        cases hxs : contentToTextFuelList (n + 1) xs with
        | none => simp [hx, hxs] at h
        | some ts2 =>
          simp only [hx, hxs] at h
          rw [hc x t hx, ihx ts2 hxs]
          exact h

theorem contentToTextFuel_mono {n m : Nat} (hnm : n ≤ m) {c : PyVal} {s : String}
    (h : contentToTextFuel n c = some s) : contentToTextFuel m c = some s := by
  induction m with
  | zero =>
    have : n = 0 := by omega
    subst this; exact h
  | succ m ih =>
    rcases Nat.lt_or_ge n (m + 1) with hlt | hge
    · exact (contentToTextFuel_mono_succ m).1 c s (ih (by omega))
    · have : n = m + 1 := by omega
      subst this; exact h

theorem contentToTextFuelList_mono {n m : Nat} (hnm : n ≤ m) {xs : List PyVal}
    {ts : List String} (h : contentToTextFuelList n xs = some ts) :
    contentToTextFuelList m xs = some ts := by
  induction m with
  | zero =>
    have : n = 0 := by omega
    subst this; exact h
  | succ m ih =>
    rcases Nat.lt_or_ge n (m + 1) with hlt | hge
    · exact (contentToTextFuel_mono_succ m).2 xs ts (ih (by omega))
    · have : n = m + 1 := by omega
      subst this; exact h

mutual

/-- The nesting depth of a Python value, which bounds the recursion depth
_content_to_text needs on it. -/
def pyDepth : PyVal → Nat
  | .null => 1
  | .str _ => 1
  | .num _ => 1
  | .bool _ => 1
  | .dict _ => 1
  | .obj _ _ => 1
  | .list xs => pyDepthList xs + 1

def pyDepthList : List PyVal → Nat
  | [] => 0
  | x :: xs => max (pyDepth x) (pyDepthList xs)

end

mutual

theorem contentToText_total_aux : ∀ c : PyVal,
    contentToTextFuel (pyDepth c) c = some (contentToText c)
  | .null => rfl
  | .str _ => rfl
  | .num _ => rfl
  | .bool _ => rfl
  | .dict _ => rfl
  | .obj _ _ => rfl
  | .list xs => by
      have hxs := contentToTextList_total_aux xs
      show contentToTextFuel (pyDepthList xs + 1) (PyVal.list xs) = _
      simp only [contentToTextFuel, contentToText, hxs]
      rfl

theorem contentToTextList_total_aux : ∀ xs : List PyVal,
    contentToTextFuelList (pyDepthList xs) xs = some (contentToTextList xs)
  | [] => rfl
  | x :: xs => by
      have h1 : contentToTextFuel (pyDepthList (x :: xs)) x =
          some (contentToText x) :=
        contentToTextFuel_mono (by simp [pyDepthList]) (contentToText_total_aux x)
      have h2 : contentToTextFuelList (pyDepthList (x :: xs)) xs =
          some (contentToTextList xs) :=
        contentToTextFuelList_mono (by simp [pyDepthList])
          (contentToTextList_total_aux xs)
      simp only [contentToTextFuelList, contentToTextList]
      rw [h1, h2]

end

/-- Claim C2: the content normalizer _content_to_text is total.  For every
modelled input value (null, string, deeply nested sequences, keyed records
with or without a string text field, objects with a text attribute, and any
other value) the depth-indexed evaluator succeeds at every sufficiently large
recursion depth and returns the string computed by the total embedding: the
function terminates, returns a string, and has no raising path (the only
failure mode of the evaluator is exhausted fuel, and a finite depth always
suffices). -/
theorem content_to_text_total (c : PyVal) :
    ∃ n : Nat, ∀ m : Nat, n ≤ m →
      contentToTextFuel m c = some (contentToText c) := by
  refine ⟨pyDepth c, fun m hm => ?_⟩
  exact contentToTextFuel_mono hm (contentToText_total_aux c)

/-!
The Conversation Loop Engine, OpenAI variant
(MCPClient.process_query_openai, client.py lines 157-252).

External collaborators are modelled as an environment:
the tool provider's list_tools catalog (indexed by how many times the
session has listed tools so far, since a reconnect could change it), the
chat-completion backend (indexed by how many completion calls the run has
issued so far; each response is the first choice's message), call_tool as a
pure function from tool name and parsed arguments to the result content, and
json.loads as a partial parse function returning none on JSONDecodeError.
-/

structure ToolDescriptor where
  name : String
  description : String
  inputSchema : String
deriving DecidableEq

structure FunctionSchema where
  name : String
  description : String
  parameters : String
deriving DecidableEq

structure OpenAITool where
  type : String
  function : FunctionSchema
deriving DecidableEq

structure FunctionPayload where
  name : String
  arguments : String
deriving DecidableEq

structure ToolCall where
  id : String
  type : String
  function : FunctionPayload
deriving DecidableEq

/-- The first choice's message of a chat completion response. -/
structure ChatMessage where
  role : String
  content : PyVal
  tool_calls : Option (List ToolCall)

/-- A message of the conversation history assembled by the loop: the seeded
user message, an appended assistant message (its model_dump, with the content
override of client.py lines 226-227 applied), or a tool-result message keyed
by a call id. -/
inductive HistMessage where
  | user (content : String)
  | assistant (content : PyVal) (tool_calls : List ToolCall)
  | tool (tool_call_id : String) (content : String)

/-- Observable actions of one run: a list_tools query, a completion request
carrying the message history and tool schema sent, and a tool invocation
carrying the originating call and the parsed arguments passed to call_tool. -/
inductive Event where
  | listToolsCall (catalog : List ToolDescriptor)
  | completionCall (messages : List HistMessage) (tools : List OpenAITool)
  | toolInvocation (call : ToolCall) (parsedArgs : PyVal)

structure Env where
  listTools : Nat → List ToolDescriptor
  backend : Nat → ChatMessage
  callTool : String → PyVal → PyVal
  jsonParse : String → Option PyVal

/-- The backend-shaped schema entry built from one tool descriptor
(client.py lines 170-180): type function, with name, description and the
input schema as parameters. -/
def shapeTool (t : ToolDescriptor) : OpenAITool :=
  ⟨"function", ⟨t.name, t.description, t.inputSchema⟩⟩

/-- Python truthiness of a modelled value, as used by
`if not assistant_message.get("content")` and `if message_text`. -/
def pyFalsy : PyVal → Bool
  | .null => true
  | .str s => s == ""
  | .num n => n == 0
  | .bool b => !b
  | .list xs => xs.isEmpty
  | .dict fs => fs.isEmpty
  | .obj _ _ => false

/-- The arguments string actually parsed: tool_call.function.arguments or
"\x7b\x7d" when it is empty/None (client.py line 232). -/
def effectiveArgs (tc : ToolCall) : String :=
  if tc.function.arguments = "" then "\x7b\x7d" else tc.function.arguments

/-- json.loads(arguments) with JSONDecodeError recovered as the empty dict
(client.py lines 233-236). -/
def parsedArgsOf (env : Env) (tc : ToolCall) : PyVal :=
  (env.jsonParse (effectiveArgs tc)).getD (PyVal.dict [])

/-- The tool-result text appended for one call: the normalized result
content, or the fixed placeholder when it is empty (client.py line 240). -/
def toolResponseTextOf (env : Env) (tc : ToolCall) : String :=
  if contentToText (env.callTool tc.function.name (parsedArgsOf env tc)) = ""
  then "Tool returned no content."
  else contentToText (env.callTool tc.function.name (parsedArgsOf env tc))

/-- One iteration of the for-loop over tool_calls (client.py lines 230-248):
the tool-role message appended to history and the invocation performed. -/
def runToolCall (env : Env) (tc : ToolCall) : HistMessage × Event :=
  (HistMessage.tool tc.id (toolResponseTextOf env tc),
   Event.toolInvocation tc (parsedArgsOf env tc))

def toolMessagesOf (env : Env) (tcs : List ToolCall) : List HistMessage :=
  tcs.map (fun tc => (runToolCall env tc).1)

def toolEventsOf (env : Env) (tcs : List ToolCall) : List Event :=
  tcs.map (fun tc => (runToolCall env tc).2)

/-- The assistant message appended verbatim to history (model_dump of the
response message, client.py lines 207-228), with the content override: when
the content is falsy it is replaced by `message_text or ""`, which is the
normalized text string. -/
def assistantOf (message : ChatMessage) : HistMessage :=
  HistMessage.assistant
    (if pyFalsy message.content then PyVal.str (contentToText message.content)
     else message.content)
    (message.tool_calls.getD [])

structure LoopState where
  messages : List HistMessage
  finalText : List String
  trace : List Event
  ncalls : Nat

structure RunResult where
  finalText : String
  messages : List HistMessage
  trace : List Event

/-- final_text.append(message_text) guarded by `if message_text`
(client.py lines 199-201). -/
def appendText (acc : List String) (t : String) : List String :=
  if t = "" then acc else acc ++ [t]

/-- The state after one tool-call round (client.py lines 207-250): the
assistant message and one tool message per call are appended to history, the
invocations are recorded, and the next completion call is issued with the
updated history and the (unchanged) tool schema. -/
def nextState (env : Env) (tools : List OpenAITool) (st : LoopState)
    (message : ChatMessage) : LoopState :=
  ⟨st.messages ++ assistantOf message ::
      toolMessagesOf env (message.tool_calls.getD []),
   appendText st.finalText (contentToText message.content),
   st.trace ++ toolEventsOf env (message.tool_calls.getD []) ++
      [Event.completionCall
        (st.messages ++ assistantOf message ::
            toolMessagesOf env (message.tool_calls.getD []))
        tools],
   st.ncalls + 1⟩

/-- The `while True` loop of process_query_openai (client.py lines 195-251),
with fuel bounding the number of iterations (the source imposes no round
cap, so a run is modelled as defined only when the backend stops asking for
tools within the provided fuel). -/
def processLoop (env : Env) (tools : List OpenAITool) :
    Nat → LoopState → ChatMessage → Option RunResult
  | 0, _, _ => none
  | fuel + 1, st, message =>
    if (message.tool_calls.getD []).isEmpty then
      some ⟨String.intercalate "\n"
              (appendText st.finalText (contentToText message.content)),
            st.messages, st.trace⟩
    else
      processLoop env tools fuel (nextState env tools st message)
        (env.backend st.ncalls)

/-- Embedding of process_query_openai (client.py lines 157-252): seed the
history with the user message, fetch the tool catalog once and shape it,
issue the first completion call, then run the loop. -/
def processQueryOpenai (env : Env) (fuel : Nat) (query : String) :
    Option RunResult :=
  processLoop env ((env.listTools 0).map shapeTool) fuel
    ⟨[HistMessage.user query], [],
     [Event.listToolsCall (env.listTools 0),
      Event.completionCall [HistMessage.user query]
        ((env.listTools 0).map shapeTool)],
     1⟩
    (env.backend 0)

/-!
The Conversation Loop Engine, Anthropic variant
(MCPClient.process_query_anthropic, client.py lines 88-154).

A response is a list of content parts, each either a text block or a
tool_use block.  The for-loop iterates over the parts of the FIRST response
only; each tool_use part triggers a tool invocation and one further
messages.create call whose first content part's text is appended.  The
environment carries the response script (indexed by completion-call count),
call_tool, and the Python str() rendering of the tool arguments dict used in
the f-string marker line (a library behaviour, so a parameter).
-/

inductive AContent where
  | text (s : String)
  | toolUse (id : String) (name : String) (input : PyVal)

structure AEnv where
  backend : Nat → List AContent
  callTool : String → PyVal → PyVal
  pyRepr : PyVal → String

/-- The f-string marker appended for each tool_use part
(client.py line 126). -/
def callingToolLine (aenv : AEnv) (name : String) (input : PyVal) : String :=
  "[Calling tool " ++ name ++ " with args " ++ aenv.pyRepr input ++ "]"

/-- The for-loop over the first response's content parts (client.py lines
116-152): text parts are appended to final_text; a tool_use part invokes the
tool, appends the marker line, issues the next messages.create call (index
k) and appends response.content[0].text.  none models the AttributeError or
IndexError raised when that follow-up response does not start with a text
part.  The invocations accumulator records the call_tool invocations in
order; the assembled messages list only feeds the backend, which the
embedding scripts by call index, so it is not tracked. -/
def processAnthropicParts (aenv : AEnv) :
    List AContent → Nat → List String → List (String × PyVal) →
    Option (List String × List (String × PyVal))
  | [], _, acc, inv => some (acc, inv)
  | .text s :: rest, k, acc, inv =>
      processAnthropicParts aenv rest k (acc ++ [s]) inv
  | .toolUse _ name input :: rest, k, acc, inv =>
      match aenv.backend k with
      | .text t :: _ =>
          processAnthropicParts aenv rest (k + 1)
            (acc ++ [callingToolLine aenv name input, t])
            (inv ++ [(name, aenv.callTool name input)])
      | _ => none

/-- Embedding of process_query_anthropic (client.py lines 88-154): run the
part loop on the first response and join final_text with newlines. -/
def processQueryAnthropic (aenv : AEnv) (query : String) : Option String :=
  (processAnthropicParts aenv (aenv.backend 0) 1 [] []).map
    (fun r => String.intercalate "\n" r.1)

/-!
The Session Shell (MCPClient.chat_loop, client.py lines 255-293).

input() yields one raw line per prompt; the loop strips it, checks the
lowercased result against "quit", accretes the running context with a
"User: " line, prepends the whole context to the stripped query, dispatches
to process_query_openai (modelled as a function returning ok text or the
message of a raised exception), prints, and on success appends an
"Assistant: " line to the context.  The loop is driven by the finite script
of input lines; the observable behaviour is the list of engine invocations
and printed lines.
-/

/-- Python whitespace for str.strip(): space, tab, newline, carriage
return. -/
def isPySpace (c : Char) : Bool :=
  c == ' ' || c == '\t' || c == '\n' || c == '\r'

/-- Python str.strip() on the read line (client.py line 279): drop leading
and trailing whitespace characters. -/
def pythonStrip (s : String) : String :=
  String.mk (((s.data.dropWhile isPySpace).reverse.dropWhile
    isPySpace).reverse)

/-- Python str.lower() as used in the quit check (client.py line 281),
mapping each character to its lower-case form. -/
def pythonLower (s : String) : String := String.mk (s.data.map Char.toLower)

structure ChatEnv where
  process : String → Except String String

inductive ChatEvent where
  | engineCall (prompt : String)
  | printed (line : String)

/-- Embedding of the while-loop of chat_loop (client.py lines 277-293) over
a finite script of input lines, starting from the accreted context ctx. -/
def chatLoop (cenv : ChatEnv) : String → List String → List ChatEvent
  | _, [] => []
  | ctx, line :: rest =>
    if pythonLower (pythonStrip line) == "quit" then []
    else
      ChatEvent.engineCall
          (ctx ++ "User: " ++ pythonStrip line ++ "\n" ++ pythonStrip line) ::
      match cenv.process
          (ctx ++ "User: " ++ pythonStrip line ++ "\n" ++ pythonStrip line) with
      | .ok r =>
          ChatEvent.printed ("\n" ++ r) ::
          chatLoop cenv
            (ctx ++ "User: " ++ pythonStrip line ++ "\n" ++
              "Assistant: " ++ r ++ "\n") rest
      | .error e =>
          ChatEvent.printed ("\nError: " ++ e) ::
          chatLoop cenv (ctx ++ "User: " ++ pythonStrip line ++ "\n") rest

def isEngineCall : ChatEvent → Bool
  | .engineCall _ => true
  | .printed _ => false

/-- The number of Conversation Loop Engine invocations among the events. -/
def engineCallCount (evs : List ChatEvent) : Nat :=
  (evs.filter isEngineCall).length

/-!
History well-formedness: in every payload sent to the backend, each
assistant message carrying tool calls is immediately followed by exactly one
tool-role message per call, keyed by the call ids in order.
-/

/-- The next messages answer the given tool calls positionally: one
tool-role message per call, carrying that call's id, in order. -/
def answersCalls : List ToolCall → List HistMessage → Bool
  | [], _ => true
  | tc :: tcs, HistMessage.tool i _ :: rest => i == tc.id && answersCalls tcs rest
  | _ :: _, _ => false

/-- Every assistant message with tool calls is immediately and completely
answered inside the history. -/
def roundAnswered : List HistMessage → Bool
  | [] => true
  | HistMessage.assistant _ tcs :: rest =>
      answersCalls tcs rest && roundAnswered (rest.drop tcs.length)
  | HistMessage.user _ :: rest => roundAnswered rest
  | HistMessage.tool _ _ :: rest => roundAnswered rest
termination_by msgs => msgs.length
decreasing_by
  all_goals simp
  all_goals omega

theorem answersCalls_length {tcs : List ToolCall} :
    ∀ {rest : List HistMessage}, answersCalls tcs rest = true →
      tcs.length ≤ rest.length := by
  induction tcs with
  | nil => intro rest _; simp
  | cons tc tcs ih =>
    intro rest h
    cases rest with
    | nil => simp [answersCalls] at h
    | cons m rest =>
      cases m with
      | user s => simp [answersCalls] at h
      | assistant c tcs2 => simp [answersCalls] at h
      | tool i c =>
        simp only [answersCalls, Bool.and_eq_true] at h
        have := ih h.2
        simp
        omega

theorem answersCalls_append {tcs : List ToolCall} :
    ∀ {rest ext : List HistMessage}, answersCalls tcs rest = true →
      answersCalls tcs (rest ++ ext) = true := by
  induction tcs with
  | nil => intro rest ext _; simp [answersCalls]
  | cons tc tcs ih =>
    intro rest ext h
    cases rest with
    | nil => simp [answersCalls] at h
    | cons m rest =>
      cases m with
      | user s => simp [answersCalls] at h
      | assistant c tcs2 => simp [answersCalls] at h
      | tool i c =>
        simp only [answersCalls, Bool.and_eq_true] at h
        simp only [List.cons_append, answersCalls, Bool.and_eq_true]
        exact ⟨h.1, ih h.2⟩

theorem roundAnswered_append :
    ∀ (n : Nat) (a b : List HistMessage), a.length ≤ n →
      roundAnswered a = true → roundAnswered b = true →
      roundAnswered (a ++ b) = true := by
  intro n
  induction n with
  | zero =>
    intro a b hlen ha hb
    have : a = [] := List.eq_nil_of_length_eq_zero (by omega)
    subst this
    simpa using hb
  | succ n ih =>
    intro a b hlen ha hb
    cases a with
    | nil => simpa using hb
    | cons m a =>
      cases m with
      | user s =>
        simp only [roundAnswered] at ha
        simp only [List.cons_append, roundAnswered]
        exact ih a b (by simp at hlen; omega) ha hb
      | tool i c =>
        simp only [roundAnswered] at ha
        simp only [List.cons_append, roundAnswered]
        exact ih a b (by simp at hlen; omega) ha hb
      | assistant c tcs =>
        simp only [roundAnswered, Bool.and_eq_true] at ha
        simp only [List.cons_append, roundAnswered, Bool.and_eq_true]
        have hle : tcs.length ≤ a.length := answersCalls_length ha.1
        constructor
        · exact answersCalls_append ha.1
        · rw [List.drop_append_of_le_length hle]
          refine ih (a.drop tcs.length) b ?_ ha.2 hb
          have : (a.drop tcs.length).length = a.length - tcs.length := by
            simp
          simp at hlen
          omega

theorem answersCalls_toolMessages (env : Env) :
    ∀ tcs : List ToolCall, answersCalls tcs (toolMessagesOf env tcs) = true := by
  intro tcs
  induction tcs with
  | nil => rfl
  | cons tc tcs ih =>
    simp only [toolMessagesOf, List.map_cons, runToolCall, answersCalls,
      Bool.and_eq_true, beq_self_eq_true, true_and]
    simpa [toolMessagesOf] using ih

theorem roundAnswered_block (env : Env) (message : ChatMessage) :
    roundAnswered (assistantOf message ::
      toolMessagesOf env (message.tool_calls.getD [])) = true := by
  rw [assistantOf]
  rw [roundAnswered]
  simp only [Bool.and_eq_true]
  constructor
  · exact answersCalls_toolMessages env (message.tool_calls.getD [])
  · have hlen : (toolMessagesOf env (message.tool_calls.getD [])).length =
        (message.tool_calls.getD []).length := by
      simp [toolMessagesOf]
    rw [← hlen, List.drop_length]
    rw [roundAnswered]

theorem completion_not_mem_toolEvents (env : Env) (tcs : List ToolCall)
    (m : List HistMessage) (t : List OpenAITool) :
    Event.completionCall m t ∉ toolEventsOf env tcs := by
  intro h
  simp only [toolEventsOf, runToolCall, List.mem_map] at h
  obtain ⟨tc, _, h⟩ := h
  exact Event.noConfusion h

theorem processLoop_completion_roundAnswered (env : Env)
    (tools : List OpenAITool) :
    ∀ (fuel : Nat) (st : LoopState) (message : ChatMessage) (res : RunResult),
      processLoop env tools fuel st message = some res →
      roundAnswered st.messages = true →
      (∀ m t, Event.completionCall m t ∈ st.trace → roundAnswered m = true) →
      ∀ m t, Event.completionCall m t ∈ res.trace → roundAnswered m = true := by
  intro fuel
  induction fuel with
  | zero => intro st message res h; simp [processLoop] at h
  | succ n ih =>
    intro st message res h hmsgs htrace m t hm
    rw [processLoop] at h
    by_cases hc : (message.tool_calls.getD []).isEmpty
    · rw [if_pos hc] at h
      injection h with h
      subst h
      exact htrace m t hm
    · rw [if_neg hc] at h
      have hmsgs2 : roundAnswered (nextState env tools st message).messages = true := by
        show roundAnswered (st.messages ++ assistantOf message ::
          toolMessagesOf env (message.tool_calls.getD [])) = true
        exact roundAnswered_append st.messages.length st.messages _ le_rfl hmsgs
          (roundAnswered_block env message)
      have htrace2 : ∀ m t,
          Event.completionCall m t ∈ (nextState env tools st message).trace →
          roundAnswered m = true := by
        intro m t hmem
        show roundAnswered m = true
        simp only [nextState, List.append_assoc, List.mem_append,
          List.mem_singleton] at hmem
        rcases hmem with hmem | hmem | hmem
        · exact htrace m t hmem
        · exact absurd hmem (completion_not_mem_toolEvents env _ m t)
        · injection hmem with h1 h2
          subst h1
          exact hmsgs2
      exact ih (nextState env tools st message) (env.backend st.ncalls) res h
        hmsgs2 htrace2 m t hm

/-- Claim C1: in process_query_openai, every assistant response carrying
tool-call requests is fully answered before the next completion call:
in the message history sent with every backend completion call of the run,
each assistant message that carries tool calls is immediately followed by
exactly one tool-role message per ToolCallRequest, keyed by that call's id,
in order; so no completion is ever requested while a call of the current
round is unanswered. -/
theorem openai_tool_calls_answered_before_next_completion (env : Env)
    (fuel : Nat) (query : String) (res : RunResult)
    (h : processQueryOpenai env fuel query = some res) :
    ∀ msgs tools, Event.completionCall msgs tools ∈ res.trace →
      roundAnswered msgs = true := by
  rw [processQueryOpenai] at h
  refine processLoop_completion_roundAnswered env _ fuel _ _ res h ?_ ?_
  · rw [roundAnswered, roundAnswered]
  · intro m t hm
    simp only [List.mem_cons, List.not_mem_nil, or_false] at hm
    rcases hm with hm | hm
    · exact Event.noConfusion hm
    · injection hm with h1 h2
      subst h1
      rw [roundAnswered, roundAnswered]

/-- A concrete session for exercising C1: the first response requests one
tool call, the second none. -/
def tcC1 : ToolCall := ⟨"id1", "function", ⟨"t", "\x7b\x7d"⟩⟩

def envC1 : Env where
  listTools := fun _ => []
  backend := fun n => match n with
    | 0 => ⟨"assistant", PyVal.null, some [tcC1]⟩
    | _ => ⟨"assistant", PyVal.str "done", none⟩
  callTool := fun _ _ => PyVal.str "R"
  jsonParse := fun s => if s = "\x7b\x7d" then some (PyVal.dict []) else none

def resC1 : RunResult :=
  ⟨"done",
   [HistMessage.user "q", HistMessage.assistant (PyVal.str "") [tcC1],
    HistMessage.tool "id1" "R"],
   [Event.listToolsCall [],
    Event.completionCall [HistMessage.user "q"] [],
    Event.toolInvocation tcC1 (PyVal.dict []),
    Event.completionCall
      [HistMessage.user "q", HistMessage.assistant (PyVal.str "") [tcC1],
       HistMessage.tool "id1" "R"] []]⟩

/-- Witness for C1: on the concrete one-round session envC1, the history
sent with the second completion call is well-formed: the assistant message
carrying tcC1 is immediately followed by exactly one tool message keyed by
its id. -/
theorem openai_tool_calls_answered_witness : roundAnswered
    [HistMessage.user "q", HistMessage.assistant (PyVal.str "") [tcC1],
     HistMessage.tool "id1" "R"] = true :=
  openai_tool_calls_answered_before_next_completion envC1 2 "q" resC1 rfl
    [HistMessage.user "q", HistMessage.assistant (PyVal.str "") [tcC1],
     HistMessage.tool "id1" "R"] []
    (List.Mem.tail _ (List.Mem.tail _ (List.Mem.tail _ (List.Mem.head _))))

theorem intercalate_appendText_nil (t : String) :
    String.intercalate "\n" (appendText [] t) = t := by
  by_cases h : t = ""
  · subst h; rfl
  · rw [appendText, if_neg h]
    rfl

theorem run_no_tool_calls (env : Env) (query : String) (fuel : Nat)
    (h : (env.backend 0).tool_calls.getD [] = []) :
    processQueryOpenai env (fuel + 1) query =
      some ⟨contentToText (env.backend 0).content,
            [HistMessage.user query],
            [Event.listToolsCall (env.listTools 0),
             Event.completionCall [HistMessage.user query]
               ((env.listTools 0).map shapeTool)]⟩ := by
  rw [processQueryOpenai, processLoop, h]
  simp only [List.isEmpty_nil, if_true]
  rw [intercalate_appendText_nil]

/-- Claim C6: when the backend's first response carries no tool calls, the
engine makes exactly one backend completion call (the trace holds exactly
one completionCall event, issued with the seeded history) and returns that
response's content normalized via _content_to_text; history receives no
further messages. -/
theorem openai_single_call_returns_normalized_content (env : Env)
    (query : String) (fuel : Nat)
    (h : (env.backend 0).tool_calls.getD [] = []) :
    processQueryOpenai env (fuel + 1) query =
      some ⟨contentToText (env.backend 0).content,
            [HistMessage.user query],
            [Event.listToolsCall (env.listTools 0),
             Event.completionCall [HistMessage.user query]
               ((env.listTools 0).map shapeTool)]⟩ :=
  run_no_tool_calls env query fuel h

/-- A concrete session whose first response is tool-call-free. -/
def envC6 : Env where
  listTools := fun _ => [⟨"get_weather", "weather tool", "schema6"⟩]
  backend := fun _ => ⟨"assistant", PyVal.str "hello", none⟩
  callTool := fun _ _ => PyVal.null
  jsonParse := fun _ => none

/-- Witness for C6 on envC6: one completion call, and the returned text is
the first response's normalized content. -/
theorem openai_single_call_witness :
    processQueryOpenai envC6 1 "q" =
      some ⟨"hello", [HistMessage.user "q"],
            [Event.listToolsCall [⟨"get_weather", "weather tool", "schema6"⟩],
             Event.completionCall [HistMessage.user "q"]
               [⟨"function", ⟨"get_weather", "weather tool", "schema6"⟩⟩]]⟩ :=
  openai_single_call_returns_normalized_content envC6 "q" 0 rfl

def isListToolsEvent : Event → Bool
  | .listToolsCall _ => true
  | _ => false

/-- The number of list_tools queries recorded in a trace. -/
def countListTools (tr : List Event) : Nat :=
  (tr.filter isListToolsEvent).length

theorem processLoop_trace_ext (env : Env) (tools : List OpenAITool) :
    ∀ (fuel : Nat) (st : LoopState) (message : ChatMessage) (res : RunResult),
      processLoop env tools fuel st message = some res →
      ∃ ext, res.trace = st.trace ++ ext ∧
        (∀ e ∈ ext, isListToolsEvent e = false) ∧
        (∀ m t, Event.completionCall m t ∈ ext → t = tools) := by
  intro fuel
  induction fuel with
  | zero => intro st message res h; simp [processLoop] at h
  | succ n ih =>
    intro st message res h
    rw [processLoop] at h
    by_cases hc : (message.tool_calls.getD []).isEmpty
    · rw [if_pos hc] at h
      injection h with h
      subst h
      exact ⟨[], by simp, by simp, by simp⟩
    · rw [if_neg hc] at h
      obtain ⟨ext, hext, hlt, hcc⟩ :=
        ih (nextState env tools st message) (env.backend st.ncalls) res h
      refine ⟨toolEventsOf env (message.tool_calls.getD []) ++
        [Event.completionCall (nextState env tools st message).messages tools] ++
        ext, ?_, ?_, ?_⟩
      · rw [hext]
        simp [nextState, List.append_assoc]
      · intro e he
        simp only [List.mem_append, List.mem_singleton] at he
        rcases he with (he | he) | he
        · simp only [toolEventsOf, runToolCall, List.mem_map] at he
          obtain ⟨tc, _, rfl⟩ := he
          rfl
        · subst he; rfl
        · exact hlt e he
      · intro m t hm
        simp only [List.mem_append, List.mem_singleton] at hm
        rcases hm with (hm | hm) | hm
        · exact absurd hm (completion_not_mem_toolEvents env _ m t)
        · injection hm
        · exact hcc m t hm

/-- In any completed run, the trace records exactly one list_tools query, and
every completion call of the run carried the schema shaped from the catalog
of that single query. -/
theorem openai_schema_fetched_once (env : Env) (fuel : Nat) (query : String)
    (res : RunResult) (h : processQueryOpenai env fuel query = some res) :
    countListTools res.trace = 1 ∧
    ∀ msgs tools, Event.completionCall msgs tools ∈ res.trace →
      tools = (env.listTools 0).map shapeTool := by
  rw [processQueryOpenai] at h
  obtain ⟨ext, hext, hlt, hcc⟩ := processLoop_trace_ext env _ fuel _ _ res h
  constructor
  · rw [hext]
    show countListTools
      ([Event.listToolsCall (env.listTools 0),
        Event.completionCall [HistMessage.user query]
          ((env.listTools 0).map shapeTool)] ++ ext) = 1
    rw [countListTools, List.filter_append]
    have : ext.filter isListToolsEvent = [] := by
      rw [List.filter_eq_nil_iff]
      intro e he
      simp [hlt e he]
    rw [this]
    rfl
  · intro msgs tools hm
    rw [hext] at hm
    simp only [List.mem_append, List.mem_cons, List.not_mem_nil, or_false] at hm
    rcases hm with (hm | hm) | hm
    · exact Event.noConfusion hm
    · injection hm
    · exact hcc msgs tools hm

/-- The tool schemas sent with the completion calls of a trace, in order. -/
def completionToolsIn (tr : List Event) : List (List OpenAITool) :=
  tr.filterMap (fun e => match e with
    | Event.completionCall _ t => some t
    | _ => none)

/-- A session whose tool catalog changes between the first and second
list_tools query, with a two-round conversation. -/
def toolDescA : ToolDescriptor := ⟨"alpha", "first catalog tool", "schemaA"⟩

def toolDescB : ToolDescriptor := ⟨"beta", "second catalog tool", "schemaB"⟩

def tcC4 : ToolCall := ⟨"id4", "function", ⟨"alpha", "\x7b\x7d"⟩⟩

def envC4 : Env where
  listTools := fun n => match n with
    | 0 => [toolDescA]
    | _ => [toolDescB]
  backend := fun n => match n with
    | 0 => ⟨"assistant", PyVal.null, some [tcC4]⟩
    | _ => ⟨"assistant", PyVal.str "done", none⟩
  callTool := fun _ _ => PyVal.str "R"
  jsonParse := fun s => if s = "\x7b\x7d" then some (PyVal.dict []) else none

/-- Counterexample to C4 as stated: in the envC4 run the engine issues two
completion calls (one loop iteration with a tool call, then one more), yet
records a single list_tools query, and both completions carry the schema
shaped from the first catalog — although a fresh fetch at the second
iteration would have returned the different catalog [toolDescB].  So the
schema is not obtained fresh from list_tools at every loop iteration. -/
theorem openai_schema_refetched_counterexample :
    (processQueryOpenai envC4 2 "q").map (fun r => completionToolsIn r.trace) =
      some [[shapeTool toolDescA], [shapeTool toolDescA]] ∧
    (processQueryOpenai envC4 2 "q").map (fun r => countListTools r.trace) =
      some 1 ∧
    shapeTool toolDescA ≠ shapeTool toolDescB := by
  refine ⟨rfl, rfl, by decide⟩

/-- Claim C4 amended: within one process_query_openai run the schema is
obtained from the tool provider's list_tools exactly once, before the first
completion call, and that same schema is sent with every completion call of
the run rather than being re-fetched at each loop iteration. -/
theorem openai_schema_fetched_once_per_run (env : Env) (fuel : Nat)
    (query : String) (res : RunResult)
    (h : processQueryOpenai env fuel query = some res) :
    countListTools res.trace = 1 ∧
    ∀ msgs tools, Event.completionCall msgs tools ∈ res.trace →
      tools = (env.listTools 0).map shapeTool :=
  openai_schema_fetched_once env fuel query res h

def resC4 : RunResult :=
  ⟨"done",
   [HistMessage.user "q", HistMessage.assistant (PyVal.str "") [tcC4],
    HistMessage.tool "id4" "R"],
   [Event.listToolsCall [toolDescA],
    Event.completionCall [HistMessage.user "q"] [shapeTool toolDescA],
    Event.toolInvocation tcC4 (PyVal.dict []),
    Event.completionCall
      [HistMessage.user "q", HistMessage.assistant (PyVal.str "") [tcC4],
       HistMessage.tool "id4" "R"] [shapeTool toolDescA]]⟩

/-- Witness for the amended C4 on the concrete two-round session envC4. -/
theorem openai_schema_fetched_once_witness : countListTools resC4.trace = 1 :=
  (openai_schema_fetched_once_per_run envC4 2 "q" resC4 rfl).1

theorem assistant_not_mem_toolMessages (env : Env) (tcs : List ToolCall)
    (c : PyVal) (tcs2 : List ToolCall) :
    HistMessage.assistant c tcs2 ∉ toolMessagesOf env tcs := by
  intro h
  simp only [toolMessagesOf, runToolCall, List.mem_map] at h
  obtain ⟨tc, _, h⟩ := h
  exact HistMessage.noConfusion h

theorem processLoop_invocations (env : Env) (tools : List OpenAITool) :
    ∀ (fuel : Nat) (st : LoopState) (message : ChatMessage) (res : RunResult),
      processLoop env tools fuel st message = some res →
      (∀ c tcs, HistMessage.assistant c tcs ∈ st.messages →
        ∀ tc ∈ tcs, Event.toolInvocation tc (parsedArgsOf env tc) ∈ st.trace) →
      ∀ c tcs, HistMessage.assistant c tcs ∈ res.messages →
        ∀ tc ∈ tcs, Event.toolInvocation tc (parsedArgsOf env tc) ∈ res.trace := by
  intro fuel
  induction fuel with
  | zero => intro st message res h; simp [processLoop] at h
  | succ n ih =>
    intro st message res h hst
    rw [processLoop] at h
    by_cases hc : (message.tool_calls.getD []).isEmpty
    · rw [if_pos hc] at h
      injection h with h
      subst h
      exact hst
    · rw [if_neg hc] at h
      refine ih (nextState env tools st message) (env.backend st.ncalls) res h ?_
      intro c tcs hmem tc htc
      have hmem2 : HistMessage.assistant c tcs ∈
          st.messages ++ assistantOf message ::
            toolMessagesOf env (message.tool_calls.getD []) := hmem
      show Event.toolInvocation tc (parsedArgsOf env tc) ∈
        st.trace ++ toolEventsOf env (message.tool_calls.getD []) ++
          [Event.completionCall (nextState env tools st message).messages tools]
      simp only [List.mem_append, List.mem_cons] at hmem2
      rcases hmem2 with hmem2 | hmem2 | hmem2
      · exact List.mem_append_left _
          (List.mem_append_left _ (hst c tcs hmem2 tc htc))
      · rw [assistantOf] at hmem2
        injection hmem2 with h1 h2
        subst h2
        refine List.mem_append_left _ (List.mem_append_right _ ?_)
        simp only [toolEventsOf, runToolCall, List.mem_map]
        exact ⟨tc, htc, rfl⟩
      · exact absurd hmem2 (assistant_not_mem_toolMessages env _ c tcs)

/-- Claim C7: a tool call whose arguments string does not parse as JSON is
still invoked, with the empty object substituted as its parsed arguments:
for every tool call of any assistant message the run appended to history,
if json.loads fails on its (effective) arguments string then the trace
contains its invocation with the empty dict as parsed arguments — the
malformed arguments never abort the turn. -/
theorem openai_malformed_args_empty_object (env : Env) (fuel : Nat)
    (query : String) (res : RunResult)
    (h : processQueryOpenai env fuel query = some res)
    (c : PyVal) (tcs : List ToolCall)
    (hm : HistMessage.assistant c tcs ∈ res.messages)
    (tc : ToolCall) (htc : tc ∈ tcs)
    (hbad : env.jsonParse (effectiveArgs tc) = none) :
    Event.toolInvocation tc (PyVal.dict []) ∈ res.trace := by
  rw [processQueryOpenai] at h
  have hinv := processLoop_invocations env _ fuel _ _ res h ?_ c tcs hm tc htc
  · rw [parsedArgsOf, hbad] at hinv
    exact hinv
  · intro c2 tcs2 hmem
    simp only [List.mem_singleton] at hmem
    exact absurd hmem (fun hh => HistMessage.noConfusion hh)

/-- A session whose single tool call carries a malformed arguments string
and whose JSON parser rejects everything. -/
def tcC7 : ToolCall := ⟨"id7", "function", ⟨"t", "not json"⟩⟩

def envC7 : Env where
  listTools := fun _ => []
  backend := fun n => match n with
    | 0 => ⟨"assistant", PyVal.null, some [tcC7]⟩
    | _ => ⟨"assistant", PyVal.str "done", none⟩
  callTool := fun _ _ => PyVal.str "R"
  jsonParse := fun _ => none

def resC7 : RunResult :=
  ⟨"done",
   [HistMessage.user "q", HistMessage.assistant (PyVal.str "") [tcC7],
    HistMessage.tool "id7" "R"],
   [Event.listToolsCall [],
    Event.completionCall [HistMessage.user "q"] [],
    Event.toolInvocation tcC7 (PyVal.dict []),
    Event.completionCall
      [HistMessage.user "q", HistMessage.assistant (PyVal.str "") [tcC7],
       HistMessage.tool "id7" "R"] []]⟩

/-- Witness for C7: the call with arguments "not json" is invoked with the
empty dict as parsed arguments on the concrete session envC7. -/
theorem openai_malformed_args_witness :
    Event.toolInvocation tcC7 (PyVal.dict []) ∈ resC7.trace :=
  openai_malformed_args_empty_object envC7 2 "q" resC7 rfl (PyVal.str "")
    [tcC7] (List.Mem.tail _ (List.Mem.head _)) tcC7 (List.Mem.head _) rfl

def isToolInvocationEvent : Event → Bool
  | .toolInvocation _ _ => true
  | _ => false

/-- The number of tool invocations recorded in a trace. -/
def countToolInvocations (tr : List Event) : Nat :=
  (tr.filter isToolInvocationEvent).length

/-- The tool_call_ids of the tool-role messages of a history, in order. -/
def toolIdsIn (msgs : List HistMessage) : List String :=
  msgs.filterMap (fun m => match m with
    | HistMessage.tool i _ => some i
    | _ => none)

theorem run_one_round (env : Env) (query : String) (fuel : Nat) (tc : ToolCall)
    (h1 : (env.backend 0).tool_calls.getD [] = [tc])
    (h2 : (env.backend 1).tool_calls.getD [] = []) :
    processQueryOpenai env (fuel + 2) query =
      some ⟨String.intercalate "\n"
              (appendText (appendText [] (contentToText (env.backend 0).content))
                (contentToText (env.backend 1).content)),
            [HistMessage.user query, assistantOf (env.backend 0),
             HistMessage.tool tc.id (toolResponseTextOf env tc)],
            [Event.listToolsCall (env.listTools 0),
             Event.completionCall [HistMessage.user query]
               ((env.listTools 0).map shapeTool),
             Event.toolInvocation tc (parsedArgsOf env tc),
             Event.completionCall
               [HistMessage.user query, assistantOf (env.backend 0),
                HistMessage.tool tc.id (toolResponseTextOf env tc)]
               ((env.listTools 0).map shapeTool)]⟩ := by
  rw [processQueryOpenai]
  show processLoop _ _ (fuel + 1 + 1) _ _ = _
  rw [processLoop, h1]
  simp only [List.isEmpty_cons, Bool.false_eq_true, if_false]
  rw [processLoop]
  show (if ((env.backend 1).tool_calls.getD []).isEmpty then _ else _) = _
  rw [h2]
  simp only [List.isEmpty_nil, if_true]
  simp only [nextState]
  rw [h1]
  rfl

/-- A one-tool-call round whose first response also carries text. -/
def tcC3 : ToolCall := ⟨"id3", "function", ⟨"t", "\x7b\x7d"⟩⟩

def envC3 : Env where
  listTools := fun _ => []
  backend := fun n => match n with
    | 0 => ⟨"assistant", PyVal.str "A", some [tcC3]⟩
    | _ => ⟨"assistant", PyVal.str "B", none⟩
  callTool := fun _ _ => PyVal.str "R"
  jsonParse := fun s => if s = "\x7b\x7d" then some (PyVal.dict []) else none

/-- Counterexample to C3 as stated: in the envC3 run the backend's first
response carries the text "A" together with its single tool call and the
second response carries "B"; the returned text is "A\nB", which does not
equal the normalized text "B" of the second response — the loop appends the
first response's text to the output buffer too, so the returned text does
not derive from the second backend response only. -/
theorem openai_one_round_counterexample :
    (processQueryOpenai envC3 2 "q").map RunResult.finalText = some "A\nB" ∧
    contentToText (envC3.backend 1).content = "B" ∧
    ("A\nB" : String) ≠ "B" :=
  ⟨rfl, rfl, by decide⟩

theorem appendText_two (a b : String) :
    appendText (appendText [] a) b = [a, b].filter (fun s => s ≠ "") := by
  by_cases ha : a = "" <;> by_cases hb : b = "" <;>
    simp [appendText, ha, hb]

/-- Claim C3 amended: in a run whose first response carries exactly one tool
call and whose second carries none, the engine performs exactly one tool
invocation and appends exactly one tool-role message, keyed by the original
call's id; the returned text is the newline join of the non-empty
normalized texts of the first and the second responses (so it derives from
the second response alone exactly when the first carries no text). -/
theorem openai_one_round_one_invocation (env : Env) (query : String)
    (fuel : Nat) (tc : ToolCall)
    (h1 : (env.backend 0).tool_calls.getD [] = [tc])
    (h2 : (env.backend 1).tool_calls.getD [] = []) :
    ∃ res, processQueryOpenai env (fuel + 2) query = some res ∧
      countToolInvocations res.trace = 1 ∧
      toolIdsIn res.messages = [tc.id] ∧
      res.finalText = String.intercalate "\n"
        ([contentToText (env.backend 0).content,
          contentToText (env.backend 1).content].filter (fun s => s ≠ "")) := by
  refine ⟨_, run_one_round env query fuel tc h1 h2, rfl, rfl, ?_⟩
  show String.intercalate "\n" (appendText (appendText [] _) _) = _
  rw [appendText_two]

/-- Witness for the amended C3 on the concrete session envC3. -/
theorem openai_one_round_witness :
    ∃ res, processQueryOpenai envC3 2 "q" = some res ∧
      countToolInvocations res.trace = 1 ∧
      toolIdsIn res.messages = [tcC3.id] ∧
      res.finalText = String.intercalate "\n"
        ([contentToText (envC3.backend 0).content,
          contentToText (envC3.backend 1).content].filter (fun s => s ≠ "")) :=
  openai_one_round_one_invocation envC3 "q" 0 tcC3 rfl rfl

theorem processAnthropicParts_text (aenv : AEnv) :
    ∀ (texts : List String) (k : Nat) (acc : List String)
      (inv : List (String × PyVal)),
      processAnthropicParts aenv (texts.map AContent.text) k acc inv =
        some (acc ++ texts, inv) := by
  intro texts
  induction texts with
  | nil => intro k acc inv; simp [processAnthropicParts]
  | cons t ts ih =>
    intro k acc inv
    rw [List.map_cons, processAnthropicParts, ih]
    simp

theorem contentToTextList_map_str (texts : List String) :
    contentToTextList (texts.map PyVal.str) = texts := by
  induction texts with
  | nil => rfl
  | cons t ts ih => simp only [List.map_cons, contentToTextList, contentToText, ih]

theorem contentToText_list_str (texts : List String) (h : ∀ t ∈ texts, t ≠ "") :
    contentToText (PyVal.list (texts.map PyVal.str)) =
      String.intercalate "\n" texts := by
  simp only [contentToText, contentToTextList_map_str]
  congr 1
  exact List.filter_eq_self.mpr (fun a ha => by simpa using h a ha)

/-- Two sessions holding the same tool-call-free outcome: the Anthropic
response is a stream of text parts, and the OpenAI response carries the same
texts as a list content with no tool calls. -/
def aenvC5w : AEnv where
  backend := fun _ => [AContent.text "Hi", AContent.text "Bye"]
  callTool := fun _ _ => PyVal.null
  pyRepr := fun _ => "\x7b\x7d"

def envC5w : Env where
  listTools := fun _ => []
  backend := fun _ =>
    ⟨"assistant", PyVal.list [PyVal.str "Hi", PyVal.str "Bye"], none⟩
  callTool := fun _ _ => PyVal.null
  jsonParse := fun _ => none

/-- Claim C5 amended: for equivalent tool-call-free outcomes — the same
non-empty assistant text parts, no tool calls — the two variants return
equal final text; the equivalence does not extend to outcomes with tool
calls, where the final texts can differ (the counterexample exhibits an
outcome with one tool call on which the Anthropic variant's output carries
a bracketed Calling-tool marker line the OpenAI variant's lacks). -/
theorem variants_equal_without_tool_calls (texts : List String)
    (h : ∀ t ∈ texts, t ≠ "")
    (aenv : AEnv) (env : Env) (query : String) (fuel : Nat)
    (ha : aenv.backend 0 = texts.map AContent.text)
    (ho : env.backend 0 = ⟨"assistant", PyVal.list (texts.map PyVal.str), none⟩) :
    processQueryAnthropic aenv query =
      (processQueryOpenai env (fuel + 1) query).map RunResult.finalText := by
  rw [processQueryAnthropic, ha, processAnthropicParts_text]
  rw [run_no_tool_calls env query fuel (by rw [ho]; rfl)]
  show some (String.intercalate "\n" ([] ++ texts)) = some _
  rw [ho]
  show some (String.intercalate "\n" ([] ++ texts)) =
    some (contentToText (PyVal.list (texts.map PyVal.str)))
  rw [contentToText_list_str texts h, List.nil_append]

/-- Witness for the amended C5: on the concrete tool-call-free outcome
(texts Hi and Bye) both variants return the same final text. -/
theorem variants_equal_witness :
    processQueryAnthropic aenvC5w "q" =
      (processQueryOpenai envC5w 1 "q").map RunResult.finalText :=
  variants_equal_without_tool_calls ["Hi", "Bye"] (by decide) aenvC5w envC5w
    "q" 0 rfl rfl

/-- The same single-tool-call outcome presented to both variants: assistant
text Hi, one call of tool t with empty-dict arguments and call id c1, tool
result R, closing text Done. -/
def tcC5 : ToolCall := ⟨"c1", "function", ⟨"t", "\x7b\x7d"⟩⟩

def aenvC5 : AEnv where
  backend := fun n => match n with
    | 0 => [AContent.text "Hi", AContent.toolUse "c1" "t" (PyVal.dict [])]
    | _ => [AContent.text "Done"]
  callTool := fun _ _ => PyVal.str "R"
  pyRepr := fun _ => "\x7b\x7d"

def envC5 : Env where
  listTools := fun _ => []
  backend := fun n => match n with
    | 0 => ⟨"assistant", PyVal.str "Hi", some [tcC5]⟩
    | _ => ⟨"assistant", PyVal.str "Done", none⟩
  callTool := fun _ _ => PyVal.str "R"
  jsonParse := fun s => if s = "\x7b\x7d" then some (PyVal.dict []) else none

/-- Counterexample to C5 as stated: on the same tool outcome (assistant text
Hi, one call of t with empty arguments, result R, closing text Done) the
Anthropic variant returns an extra Calling-tool marker line, so the two
variants do not return equal final text strings for equivalent tool
outcomes that involve tool calls. -/
theorem variants_equal_counterexample :
    processQueryAnthropic aenvC5 "q" =
      some "Hi\n[Calling tool t with args \x7b\x7d]\nDone" ∧
    (processQueryOpenai envC5 2 "q").map RunResult.finalText =
      some "Hi\nDone" ∧
    ("Hi\n[Calling tool t with args \x7b\x7d]\nDone" : String) ≠ "Hi\nDone" :=
  ⟨rfl, rfl, by decide⟩

/-- Claim C8: an exception raised while processing one query (the engine
returning an error) is reported as an error line and the loop proceeds to
read the next prompt: the turn contributes the engine invocation and the
printed error line, after which the loop continues on the remaining input
script (with the context extended only by the User line, since the
Assistant line is appended after a successful turn). -/
theorem chat_error_caught_loop_continues (cenv : ChatEnv) (ctx line : String)
    (rest : List String) (e : String)
    (hq : (pythonLower (pythonStrip line) == "quit") = false)
    (he : cenv.process
        (ctx ++ "User: " ++ pythonStrip line ++ "\n" ++ pythonStrip line) =
      Except.error e) :
    chatLoop cenv ctx (line :: rest) =
      ChatEvent.engineCall
          (ctx ++ "User: " ++ pythonStrip line ++ "\n" ++ pythonStrip line) ::
      ChatEvent.printed ("\nError: " ++ e) ::
      chatLoop cenv (ctx ++ "User: " ++ pythonStrip line ++ "\n") rest := by
  rw [chatLoop, if_neg (by simp [hq]), he]

def cenvC8 : ChatEnv where
  process := fun _ => Except.error "boom"

/-- Witness for C8: on a session whose engine always raises, the turn for
the line hi prints an error line and the loop continues with the next
line. -/
theorem chat_error_caught_witness :
    chatLoop cenvC8 "" ["hi", "ok"] =
      ChatEvent.engineCall "User: hi\nhi" ::
      ChatEvent.printed "\nError: boom" ::
      chatLoop cenvC8 "User: hi\n" ["ok"] :=
  chat_error_caught_loop_continues cenvC8 "" "hi" ["ok"] "boom" rfl rfl

/-- Counterexample to C9 as stated: the input line " quit " (with
surrounding spaces) is not equal to "quit" in any letter case — its
lowercase form still differs from "quit" — yet it causes zero invocations
of the engine, because chat_loop strips the line before the quit check; so
it is false that every input line other than a letter-case variant of
"quit" causes exactly one engine invocation. -/
theorem chat_quit_counterexample :
    pythonLower " quit " ≠ "quit" ∧
    engineCallCount (chatLoop ⟨fun _ => Except.ok "ok"⟩ "" [" quit "]) = 0 :=
  ⟨by decide, rfl⟩

theorem engineCallCount_cons_engine (p : String) (evs : List ChatEvent) :
    engineCallCount (ChatEvent.engineCall p :: evs) =
      engineCallCount evs + 1 := by
  simp [engineCallCount, List.filter_cons, isEngineCall]

theorem engineCallCount_cons_printed (l : String) (evs : List ChatEvent) :
    engineCallCount (ChatEvent.printed l :: evs) = engineCallCount evs := by
  simp [engineCallCount, List.filter_cons, isEngineCall]

/-- Claim C9 amended: an input line whose whitespace-stripped form equals
"quit" case-insensitively ends the loop without invoking the Conversation
Loop Engine, and every input line before the first such line causes exactly
one engine invocation: the number of process_query_openai calls equals the
number of input lines preceding the first stripped-quit line. -/
theorem chat_one_invocation_per_nonquit_line (cenv : ChatEnv) :
    ∀ (lines : List String) (ctx : String),
      engineCallCount (chatLoop cenv ctx lines) =
        (lines.takeWhile
          (fun l => !(pythonLower (pythonStrip l) == "quit"))).length := by
  intro lines
  induction lines with
  | nil => intro ctx; rfl
  | cons line rest ih =>
    intro ctx
    rw [chatLoop]
    by_cases hq : (pythonLower (pythonStrip line) == "quit") = true
    · rw [if_pos hq]
      simp [List.takeWhile_cons, hq, engineCallCount]
    · rw [if_neg hq]
      have hq2 : (pythonLower (pythonStrip line) == "quit") = false := by
        cases hb : pythonLower (pythonStrip line) == "quit" with
        | false => rfl
        | true => exact absurd hb hq
      cases hp : cenv.process
          (ctx ++ "User: " ++ pythonStrip line ++ "\n" ++ pythonStrip line) with
      | ok r =>
        rw [engineCallCount_cons_engine]
        show engineCallCount (ChatEvent.printed _ :: _) + 1 = _
        rw [engineCallCount_cons_printed, ih]
        simp [List.takeWhile_cons, hq2]
      | error e =>
        rw [engineCallCount_cons_engine]
        show engineCallCount (ChatEvent.printed _ :: _) + 1 = _
        rw [engineCallCount_cons_printed, ih]
        simp [List.takeWhile_cons, hq2]

/-- Claim C10: for every non-quit input line, the prompt handed to
process_query_openai is the prior RunningContext, then the transcript line
"User: " with the stripped query and a newline, then the stripped query
again — the query text occurs twice in the prompt. -/
theorem chat_prompt_duplicates_query (cenv : ChatEnv) (ctx line : String)
    (rest : List String)
    (hq : (pythonLower (pythonStrip line) == "quit") = false) :
    (chatLoop cenv ctx (line :: rest)).head? =
      some (ChatEvent.engineCall
        (ctx ++ "User: " ++ pythonStrip line ++ "\n" ++ pythonStrip line)) := by
  rw [chatLoop, if_neg (by simp [hq])]
  cases hp : cenv.process
      (ctx ++ "User: " ++ pythonStrip line ++ "\n" ++ pythonStrip line) with
  | ok r => rfl
  | error e => rfl

/-- Witness for C10: with prior context C, the line hello produces the
prompt C, then the User transcript line, then hello again. -/
theorem chat_prompt_duplicates_witness :
    (chatLoop ⟨fun _ => Except.ok "r"⟩ "C " ["hello", "x"]).head? =
      some (ChatEvent.engineCall "C User: hello\nhello") :=
  chat_prompt_duplicates_query ⟨fun _ => Except.ok "r"⟩ "C " "hello" ["x"] rfl
